import Mathlib

/-
Verification development for the nowplaying-rekordbox poller
(`src/poller.py`): a change-detection poller over a Rekordbox history
database, with an lru_cache memoization layer, an artwork-to-data-URI
encoder, and two trigger-driven broadcast loops.

The Python source is shallowly embedded: database rows become plain
structures (ORM relationship attributes such as `Content.Artist` are
carried inline as `Option` fields, modelling the resolved join), the
filesystem and the share directory become an explicit `World` record of
functions, exceptions become `Except`, and the process-lifetime mutable
state (`self._history` plus the `functools.lru_cache` table on `poll`)
becomes explicit state passing over `SysState`.
-/

set_option maxHeartbeats 1000000

namespace NowPlaying

/-- A row of `DjmdArtist` as used by the poller: only `Name` is read
(`getattr(content.Artist, "Name", None)`), and `Name` is a nullable column. -/
structure ArtistRow where
  Name : Option String
deriving DecidableEq

/-- A row of `DjmdAlbum` as used by the poller: only `Name` is read. -/
structure AlbumRow where
  Name : Option String
deriving DecidableEq

/-- The fields of `DjmdContent` read by `poll`: `Title`, `ImagePath`
(both nullable columns) and the `Artist` / `Album` relationship
attributes, which are `None` when the foreign key has no match
(the artist join in the query is an OUTER join). -/
structure ContentRow where
  Title : Option String
  ImagePath : Option String
  Artist : Option ArtistRow
  Album : Option AlbumRow
deriving DecidableEq

/-- A `DjmdSongHistory` row joined with its content. `ID` and
`created_at` identify the play event; `Content` is the relationship
attribute `history.Content` (the query's inner join on
`DjmdSongHistory.ContentID == DjmdContent.ID`), carried inline. -/
structure HistoryRecord where
  ID : Nat
  created_at : Nat
  Content : ContentRow
deriving DecidableEq

/-- The `SongInfo` pydantic model: four optional string fields, all
defaulting to `None`. -/
structure SongInfo where
  artist : Option String := none
  title : Option String := none
  album : Option String := none
  artwork : Option String := none
deriving DecidableEq

/-- `SongInfo()` — the constructor call with all defaults, returned by
`poll` when the database query raises. -/
def emptySongInfo : SongInfo := {}

/-- The ambient world of `RekordboxPoller`: the resolved share directory
(`self.share_dir`) and the filesystem, as the two operations the code
performs on it (`Path.is_file` and `Path.read_bytes`, the latter failing
with `OSError` modelled as `Except.error`). -/
structure World where
  shareDir : String
  isFile : String → Bool
  readBytes : String → Except Unit (List Nat)

/-- Python `relative_path.lstrip("/")`: remove all leading slashes. -/
def lstripSlash (s : String) : String := s.dropWhile (fun c => c == '/')

/-- `self.share_dir / relative_path.lstrip("/")`. Paths are opaque
strings to the filesystem; the join is modelled with a `/` separator. -/
def fullPathOf (w : World) (relative_path : String) : String :=
  w.shareDir ++ "/" ++ lstripSlash relative_path

/-- The final component of a path (pathlib's `Path.name`), i.e. the part
after the last separator. -/
def pathName (s : String) : String := (s.splitOn "/").getLastD ""

/-- Index of the last occurrence of a dot in a character list (pathlib's
`name.rfind('.')`, as `none` instead of `-1` when absent). -/
def lastDotIndex (cs : List Char) : Option Nat :=
  ((List.range cs.length).filter (fun i => cs.getD i ' ' == '.')).getLast?

/-- Pathlib's `Path.suffix`: the extension of the final component,
`name[i:]` for `i = name.rfind('.')` when `0 < i < len(name) - 1`,
otherwise the empty string. -/
def pySuffix (s : String) : String :=
  let name := pathName s
  let cs := name.toList
  match lastDotIndex cs with
  | none => ""
  | some i => if 0 < i ∧ i < cs.length - 1 then String.mk (cs.drop i) else ""

/-- The standard base64 alphabet, indexed. -/
def base64Char (n : Nat) : Char :=
  "ABCDEFGHIJKLMNOPQRSTUVWXYZabcdefghijklmnopqrstuvwxyz0123456789+/".toList.getD n '?'

/-- `base64.b64encode`: standard base64 with `=` padding, over a byte
list (each entry `< 256`). -/
def base64Encode : List Nat → String
  | b1 :: b2 :: b3 :: rest =>
    String.mk [base64Char (b1 >>> 2),
               base64Char (((b1 &&& 3) <<< 4) ||| (b2 >>> 4)),
               base64Char (((b2 &&& 15) <<< 2) ||| (b3 >>> 6)),
               base64Char (b3 &&& 63)]
      ++ base64Encode rest
  | [b1, b2] =>
    String.mk [base64Char (b1 >>> 2),
               base64Char (((b1 &&& 3) <<< 4) ||| (b2 >>> 4)),
               base64Char ((b2 &&& 15) <<< 2)]
      ++ "="
  | [b1] =>
    String.mk [base64Char (b1 >>> 2), base64Char ((b1 &&& 3) <<< 4)] ++ "=="
  | [] => ""

/-- The `match full_path.suffix.lower()` arms of
`_load_image_as_base64_data_uri` (written as an if-chain; the source's
`case ".jpg" | ".jpeg"` or-pattern is the first disjunction). -/
def mimeFromSuffix (s : String) : String :=
  if s = ".jpg" ∨ s = ".jpeg" then "image/jpeg"
  else if s = ".png" then "image/png"
  else "image/*"

/-- `RekordboxPoller._load_image_as_base64_data_uri`: `None` when the
resolved file is not a file or reading raises `OSError`; otherwise a
`data:<mime>;base64,<payload>` URI with the MIME type inferred from the
lower-cased extension. -/
def load_image_as_base64_data_uri (w : World) (relative_path : String) : Option String :=
  let full_path := fullPathOf w relative_path
  if w.isFile full_path = false then none
  else
    match w.readBytes full_path with
    | Except.error _ => none
    | Except.ok image_data =>
      let b64 := base64Encode image_data
      let mimetype := mimeFromSuffix (pySuffix full_path).toLower
      some ("data:" ++ mimetype ++ ";base64," ++ b64)

/-- The artwork expression in `poll`:
`self._load_image_as_base64_data_uri(content.ImagePath) if content.ImagePath else None`.
Python truthiness makes both `None` and the empty string skip the load. -/
def encodeArtwork (w : World) (imagePath : Option String) : Option String :=
  match imagePath with
  | none => none
  | some p => if p = "" then none else load_image_as_base64_data_uri w p

/-- The `SongInfo(...)` construction at the end of `poll`:
`getattr(content.Artist, "Name", None)` is `Option.bind` through the
optional relationship, `Title` is passed through, artwork as above. -/
def snapshotOf (w : World) (r : HistoryRecord) : SongInfo :=
  { artist := r.Content.Artist.bind ArtistRow.Name
  , title := r.Content.Title
  , album := r.Content.Album.bind AlbumRow.Name
  , artwork := encodeArtwork w r.Content.ImagePath }

/-- The `.where(DjmdContent.Title is not None)` clause. In Python,
`DjmdContent.Title is not None` compares the column OBJECT against
`None`, which is the constant `True` (it is not `.isnot(None)`), so the
where-clause filters nothing. -/
def whereTitleClausePy (_r : HistoryRecord) : Bool := true

/-- Descending insertion by `created_at` (for `order_by(created_at.desc())`). -/
def insertByCreatedDesc (r : HistoryRecord) : List HistoryRecord → List HistoryRecord
  | [] => [r]
  | x :: xs =>
    if x.created_at ≤ r.created_at then r :: x :: xs else x :: insertByCreatedDesc r xs

/-- `order_by(DjmdSongHistory.created_at.desc())` as an insertion sort. -/
def orderByCreatedDesc (rows : List HistoryRecord) : List HistoryRecord :=
  rows.foldr insertByCreatedDesc []

/-- The history query of `poll`: joined rows (joins carried inline in
`HistoryRecord`), the Python-level where-clause, descending order by
`created_at`, `limit(1)`, `.all()`. -/
def runQuery (store : List HistoryRecord) : List HistoryRecord :=
  (orderByCreatedDesc (store.filter whereTitleClausePy)).take 1

/-- The same query with the where-clause the spec describes (records
whose `Title` is non-null are the only ones kept); written from the
spec's words, for comparison against `runQuery`. -/
def runQueryTitleFiltered (store : List HistoryRecord) : List HistoryRecord :=
  (orderByCreatedDesc (store.filter (fun r => r.Content.Title.isSome))).take 1

/-- The poller's own mutable field `self._history`: `None` initially,
later the list returned by the query. -/
structure PollerState where
  _history : Option (List HistoryRecord)
deriving DecidableEq

/-- The body of `RekordboxPoller.poll` (the function wrapped by
`lru_cache`): on a query exception return `SongInfo()`; on an empty
result list return `None`; on an unchanged result list return `None`;
otherwise store the new list in `self._history` and build a `SongInfo`
from `history[-1].Content`. -/
def pollCore (fetch : Except Unit (List HistoryRecord)) (w : World)
    (st : PollerState) : PollerState × Option SongInfo :=
  match fetch with
  | Except.error _ => (st, some emptySongInfo)
  | Except.ok history =>
    match history with
    | [] => (st, none)
    | h :: t =>
      if st._history = some (h :: t) then (st, none)
      else (⟨some (h :: t)⟩,
            some (snapshotOf w ((h :: t).getLast (List.cons_ne_nil h t))))

/-- The full mutable state of the process: the `lru_cache` table of
`poll` (most-recently-used first, at most 100 entries) and the poller's
`_history` field. -/
structure SysState where
  cache : List (String × Option SongInfo)
  poller : PollerState
deriving DecidableEq

/-- Lookup in the memoization table by cache key. -/
def cacheLookup (k : String) : List (String × Option SongInfo) → Option (Option SongInfo)
  | [] => none
  | (k', v) :: rest => if k' = k then some v else cacheLookup k rest

/-- `poll(self, _cache_key)` as seen by callers: the
`functools.lru_cache(maxsize=100)` wrapper around `pollCore`. A hit
returns the memoized value and moves the key to the most-recent
position without running the body; a miss runs the body, memoizes the
result and evicts the least-recently-used entry beyond 100. -/
def pollCached (fetch : Except Unit (List HistoryRecord)) (w : World)
    (key : String) (st : SysState) : SysState × Option SongInfo :=
  match cacheLookup key st.cache with
  | some v =>
    ({ st with cache := (key, v) :: st.cache.filter (fun p => p.1 != key) }, v)
  | none =>
    let res := pollCore fetch w st.poller
    ({ cache := ((key, res.2) :: st.cache).take 100, poller := res.1 }, res.2)

/-- A sequence of `poll` calls against a fixed fetch result, returning
the final state and the list of results in call order. -/
def pollSeq (fetch : Except Unit (List HistoryRecord)) (w : World) :
    List String → SysState → SysState × List (Option SongInfo)
  | [], st => (st, [])
  | k :: ks, st =>
    let p := pollCached fetch w k st
    let rest := pollSeq fetch w ks p.1
    (rest.1, p.2 :: rest.2)

/-- The components of `dt.datetime.now(tz=dt.timezone.utc)` that the
cache key construction can observe. -/
structure UTCTime where
  year : Nat
  month : Nat
  day : Nat
  hour : Nat
  minute : Nat
  second : Nat
  microsecond : Nat
deriving DecidableEq

/-- Zero-padding to two digits, as `%m`, `%d`, `%H`, `%M`, `%S`. -/
def pad2 (n : Nat) : String := if n < 10 then "0" ++ toString n else toString n

/-- Zero-padding to four digits, as `%Y`. -/
def pad4 (n : Nat) : String :=
  if n < 10 then "000" ++ toString n
  else if n < 100 then "00" ++ toString n
  else if n < 1000 then "0" ++ toString n
  else toString n

/-- `strftime("%Y-%m-%d %H:%M:%S")`: the cache key computed in
`_send_track_info`; microseconds are truncated away. -/
def strftimeSeconds (t : UTCTime) : String :=
  pad4 t.year ++ "-" ++ pad2 t.month ++ "-" ++ pad2 t.day ++ " "
    ++ pad2 t.hour ++ ":" ++ pad2 t.minute ++ ":" ++ pad2 t.second

/-- Truncation of a timestamp to whole seconds. -/
def truncToSecond (t : UTCTime) : UTCTime := { t with microsecond := 0 }

/-- Outcome of the single `websocket.send` attempt of a cycle:
delivered, `ConnectionClosedOK` raised (peer closed normally), or any
other exception. -/
inductive SendOutcome where
  | sent
  | closedOK
  | fatal
deriving DecidableEq

/-- `_send_track_info`: compute the cache key from the current UTC time,
call `poll`, and when the result is not `None` attempt one send.
`ConnectionClosedOK` is caught and swallowed; any other send exception
propagates (`Except.error`). The second component is the polled value
passed to the send attempt (`None` when nothing was sent). -/
def send_track_info (fetch : Except Unit (List HistoryRecord)) (w : World)
    (t : UTCTime) (outcome : SendOutcome) (st : SysState) :
    Except Unit (SysState × Option SongInfo) :=
  let cache_key := strftimeSeconds t
  let res := pollCached fetch w cache_key st
  match res.2 with
  | none => Except.ok (res.1, none)
  | some s =>
    match outcome with
    | SendOutcome.sent => Except.ok (res.1, some s)
    | SendOutcome.closedOK => Except.ok (res.1, some s)
    | SendOutcome.fatal => Except.error ()

/-- One iteration's inputs for `wait_for_hotkey`: the queue item
(`key`), the time at which the trigger fires, the store and filesystem
at that moment, and the outcome of the send attempt. -/
structure HotkeyStep where
  key : Bool
  time : UTCTime
  fetch : Except Unit (List HistoryRecord)
  world : World
  send : SendOutcome

/-- The `wait_for_hotkey` loop over a finite prefix of queue items:
`key = await key_queue.get(); if key: await _send_track_info(websocket)`.
An exception escaping the send attempt escapes the loop
(`Except.error`); otherwise the loop waits for the next signal. -/
def wait_for_hotkey_run : List HotkeyStep → SysState → Except Unit SysState
  | [], st => Except.ok st
  | e :: es, st =>
    if e.key then
      match send_track_info e.fetch e.world e.time e.send st with
      | Except.error x => Except.error x
      | Except.ok (st', _) => wait_for_hotkey_run es st'
    else wait_for_hotkey_run es st

/-- One iteration's inputs for `wait_for_interval`. -/
structure IntervalStep where
  time : UTCTime
  fetch : Except Unit (List HistoryRecord)
  world : World
  send : SendOutcome

/-- Observable events of the interval loop: a poll-and-send cycle
(carrying the poll result of that `_send_track_info` invocation) or an
`asyncio.sleep(interval)` wait. -/
inductive LoopEvent where
  | cycle : Option SongInfo → LoopEvent
  | slept : LoopEvent
deriving DecidableEq

/-- The `wait_for_interval` loop over a finite prefix of iterations:
`while True: await _send_track_info(websocket); await asyncio.sleep(interval)`.
Each iteration emits its cycle event and then its sleep event; an
exception from the send attempt ends the loop with `Except.error`. -/
def wait_for_interval_run : List IntervalStep → SysState → List LoopEvent × Except Unit SysState
  | [], st => ([], Except.ok st)
  | s :: rest, st =>
    match send_track_info s.fetch s.world s.time s.send st with
    | Except.error x => ([], Except.error x)
    | Except.ok (st', r) =>
      let cont := wait_for_interval_run rest st'
      (LoopEvent.cycle r :: LoopEvent.slept :: cont.1, cont.2)

/-- A trace alternates cycle-then-sleep pairs, so it never begins with a
sleep: the loop polls first and waits after. -/
def cycleFirstShape : List LoopEvent → Bool
  | [] => true
  | LoopEvent.cycle _ :: LoopEvent.slept :: rest => cycleFirstShape rest
  | _ => false

/-- One intervening `poll` call (its fetch result, world and cache key),
for reasoning about sequences of calls around the memoization table. -/
structure PollCall where
  fetch : Except Unit (List HistoryRecord)
  world : World
  key : String

/-- Run a list of `poll` calls, keeping the final state. -/
def runCalls : List PollCall → SysState → SysState
  | [], st => st
  | c :: cs, st => runCalls cs (pollCached c.fetch c.world c.key st).1

/-- A world with no readable files, for concrete evaluations. -/
def w0 : World := ⟨"share", fun _ => false, fun _ => Except.error ()⟩

/-- The process state at startup: empty memoization table,
`self._history = None`. -/
def st0 : SysState := ⟨[], ⟨none⟩⟩

/-- A concrete content row with only a title. -/
def contentA : ContentRow := ⟨some "Song A", none, none, none⟩

/-- A concrete history record. -/
def R0 : HistoryRecord := ⟨1, 100, contentA⟩

/-- A second play event of the same content as `R0` (a distinct history
row, identical joined metadata). -/
def R0again : HistoryRecord := ⟨2, 200, contentA⟩

/-- A history record whose content `Title` is NULL. -/
def nullTitleRecord : HistoryRecord := ⟨1, 100, ⟨none, none, none, none⟩⟩

/-- A store whose single (hence most recent) history row has a NULL
`Title`. -/
def storeNullTitle : List HistoryRecord := [nullTitleRecord]

/-- An older and a newer play event, for the order-by/limit behaviour. -/
def rOld : HistoryRecord := ⟨1, 100, ⟨some "Old", none, none, none⟩⟩

/-- The newer of the two play events. -/
def rNew : HistoryRecord := ⟨2, 200, ⟨some "New", none, none, none⟩⟩

/-- A world in which every path is a file but reading raises `OSError`. -/
def wReadErr : World := ⟨"share", fun _ => true, fun _ => Except.error ()⟩

/-- A world in which every path is a readable file with two PNG-magic
bytes. -/
def wReadOk : World := ⟨"share", fun _ => true, fun _ => Except.ok [137, 80]⟩

/-- A history record with artist metadata and an artwork path. -/
def rArt : HistoryRecord :=
  ⟨3, 300, ⟨some "Song C", some "missing.png", some ⟨some "Artist C"⟩, none⟩⟩

/-- A hotkey trigger firing at a fixed concrete time. -/
def t0 : UTCTime := ⟨2024, 1, 1, 0, 0, 0, 0⟩

/-- A hotkey cycle whose send attempt hits a normal peer close. -/
def eClosed : HotkeyStep := ⟨true, t0, Except.ok [R0], w0, SendOutcome.closedOK⟩

/-- A hotkey cycle whose send attempt hits a non-graceful failure. -/
def eFatal : HotkeyStep := ⟨true, t0, Except.ok [R0], w0, SendOutcome.fatal⟩

/-- The first interval iteration, firing at `t0` with a successful send. -/
def sInterval : IntervalStep := ⟨t0, Except.ok [R0], w0, SendOutcome.sent⟩

/-- An intervening `poll` call under a different cache key (here even
with a failing fetch, which the memoized second call never sees). -/
def cAlt : PollCall := ⟨Except.error (), w0, "b"⟩

theorem pollCached_miss (f : Except Unit (List HistoryRecord)) (w : World)
    (k : String) (st : SysState) (h : cacheLookup k st.cache = none) :
    pollCached f w k st =
      ({ cache := ((k, (pollCore f w st.poller).2) :: st.cache).take 100,
         poller := (pollCore f w st.poller).1 }, (pollCore f w st.poller).2) := by
  simp [pollCached, h]

theorem pollCached_hit (f : Except Unit (List HistoryRecord)) (w : World)
    (k : String) (st : SysState) (v : Option SongInfo)
    (h : cacheLookup k st.cache = some v) :
    pollCached f w k st
      = ({ st with cache := (k, v) :: st.cache.filter (fun p => p.1 != k) }, v) := by
  simp [pollCached, h]

theorem pollCore_error (w : World) (st : PollerState) :
    pollCore (Except.error ()) w st = (st, some emptySongInfo) := rfl

theorem pollCore_ok_nil (w : World) (st : PollerState) :
    pollCore (Except.ok []) w st = (st, none) := rfl

theorem pollCore_ok_same (w : World) (st : PollerState) (h : List HistoryRecord)
    (hne : h ≠ []) (hs : st._history = some h) :
    pollCore (Except.ok h) w st = (st, none) := by
  cases h with
  | nil => exact absurd rfl hne
  | cons a t => simp [pollCore, hs]

theorem pollCore_ok_diff (w : World) (st : PollerState) (h : List HistoryRecord)
    (hne : h ≠ []) (hs : st._history ≠ some h) :
    pollCore (Except.ok h) w st = (⟨some h⟩, some (snapshotOf w (h.getLast hne))) := by
  cases h with
  | nil => exact absurd rfl hne
  | cons a t => simp [pollCore, hs]

theorem cacheLookup_cons_ne (k k' : String) (v : Option SongInfo)
    (c : List (String × Option SongInfo)) (h : k' ≠ k) :
    cacheLookup k ((k', v) :: c) = cacheLookup k c := by
  simp [cacheLookup, h]

theorem cacheLookup_none_take (k : String) (c : List (String × Option SongInfo))
    (n : Nat) (h : cacheLookup k c = none) :
    cacheLookup k (c.take n) = none := by
  induction c generalizing n with
  | nil => simp [List.take_nil, cacheLookup]
  | cons p rest ih =>
    obtain ⟨k', v⟩ := p
    cases n with
    | zero => simp [cacheLookup]
    | succ m =>
      rw [List.take_succ_cons]
      by_cases hk : k' = k
      · subst hk; simp [cacheLookup] at h
      · rw [cacheLookup_cons_ne _ _ _ _ hk] at h
        rw [cacheLookup_cons_ne _ _ _ _ hk]
        exact ih m h

theorem cacheLookup_some_mem (k : String) (v : Option SongInfo) :
    ∀ c : List (String × Option SongInfo), cacheLookup k c = some v → (k, v) ∈ c := by
  intro c
  induction c with
  | nil => intro h; simp [cacheLookup] at h
  | cons p rest ih =>
    obtain ⟨k', v'⟩ := p
    intro h
    by_cases hk : k' = k
    · subst hk
      simp [cacheLookup] at h
      subst h
      exact List.mem_cons_self _ _
    · rw [cacheLookup_cons_ne _ _ _ _ hk] at h
      exact List.mem_cons_of_mem _ (ih h)

theorem cacheLookup_eq_none_iff (k : String) :
    ∀ c : List (String × Option SongInfo),
      cacheLookup k c = none ↔ k ∉ c.map Prod.fst := by
  intro c
  induction c with
  | nil => simp [cacheLookup]
  | cons p rest ih =>
    obtain ⟨k', v'⟩ := p
    by_cases hk : k' = k
    · subst hk; simp [cacheLookup]
    · rw [cacheLookup_cons_ne _ _ _ _ hk]
      simp only [List.map_cons, List.mem_cons, ih]
      constructor
      · intro hnm hor
        rcases hor with hor | hor
        · exact hk hor.symm
        · exact hnm hor
      · intro hnm hmem
        exact hnm (Or.inr hmem)

theorem cacheLookup_of_split (k : String) (r : Option SongInfo) :
    ∀ (pre post : List (String × Option SongInfo)),
      k ∉ pre.map Prod.fst →
      cacheLookup k (pre ++ (k, r) :: post) = some r := by
  intro pre
  induction pre with
  | nil => intro post _; simp [cacheLookup]
  | cons p rest ih =>
    obtain ⟨k', v'⟩ := p
    intro post hnm
    simp only [List.map_cons, List.mem_cons] at hnm
    push_neg at hnm
    rw [List.cons_append, cacheLookup_cons_ne _ _ _ _ (fun h => hnm.1 h.symm)]
    exact ih post hnm.2

theorem pollCached_fresh_preserved (f : Except Unit (List HistoryRecord)) (w : World)
    (k k' : String) (st : SysState) (hk : cacheLookup k st.cache = none)
    (hne : k ≠ k') (hk' : cacheLookup k' st.cache = none) :
    cacheLookup k' (pollCached f w k st).1.cache = none := by
  rw [pollCached_miss _ _ _ _ hk]
  apply cacheLookup_none_take
  rw [cacheLookup_cons_ne _ _ _ _ hne]
  exact hk'

theorem pollCached_history_after_ok (hist : List HistoryRecord) (hne : hist ≠ [])
    (w : World) (k : String) (st : SysState)
    (hk : cacheLookup k st.cache = none) :
    (pollCached (Except.ok hist) w k st).1.poller = ⟨some hist⟩ := by
  rw [pollCached_miss _ _ _ _ hk]
  by_cases hs : st.poller._history = some hist
  · rw [pollCore_ok_same w st.poller hist hne hs]
    exact congrArg PollerState.mk hs
  · rw [pollCore_ok_diff w st.poller hist hne hs]

theorem pollSeq_same_all_none (h : List HistoryRecord) (hne : h ≠ []) (w : World) :
    ∀ (ks : List String) (st : SysState),
      st.poller._history = some h →
      ks.Nodup →
      (∀ k' ∈ ks, cacheLookup k' st.cache = none) →
      (pollSeq (Except.ok h) w ks st).2 = List.replicate ks.length none := by
  intro ks
  induction ks with
  | nil => intro st _ _ _; rfl
  | cons k ks ih =>
    intro st hh hnd hfr
    have hk : cacheLookup k st.cache = none := hfr k (List.mem_cons_self k ks)
    have hmiss := pollCached_miss (Except.ok h) w k st hk
    have hcore := pollCore_ok_same w st.poller h hne hh
    simp only [pollSeq, hmiss, hcore, List.length_cons, List.replicate_succ]
    refine congrArg (List.cons none) ?_
    apply ih
    · exact hh
    · exact hnd.of_cons
    · intro k' hk'
      have hkk : k ≠ k' := by
        rintro rfl
        exact (List.nodup_cons.mp hnd).1 hk'
      apply cacheLookup_none_take
      rw [cacheLookup_cons_ne _ _ _ _ hkk]
      exact hfr k' (List.mem_cons_of_mem _ hk')

/-- C1 (counterexample): the claim "every subsequent poll against the
same unchanged record returns absent" is false as stated: a second call
to `poll` with the same cache key (a trigger in the same wall-clock
second) hits the lru_cache and returns the first call's non-absent
snapshot again. -/
theorem poll_same_key_resends :
    (pollCached (Except.ok [R0]) w0 "a" st0).2 ≠ none
    ∧ (pollCached (Except.ok [R0]) w0 "a"
        (pollCached (Except.ok [R0]) w0 "a" st0).1).2
        = (pollCached (Except.ok [R0]) w0 "a" st0).2
    ∧ (pollCached (Except.ok [R0]) w0 "a"
        (pollCached (Except.ok [R0]) w0 "a" st0).1).2 ≠ none := by
  decide

/-- C1 (amended): for a sequence of `poll` calls with pairwise-distinct,
previously uncached keys and an unchanged fetch result, the first call
returns a non-absent snapshot exactly when the record differs from
`self._history`, and every later call returns absent. -/
theorem poll_fresh_keys_idempotent (hist : List HistoryRecord) (hne : hist ≠ [])
    (w : World) (k : String) (ks : List String) (st : SysState)
    (hnd : (k :: ks).Nodup)
    (hfr : ∀ k' ∈ k :: ks, cacheLookup k' st.cache = none) :
    ((pollCached (Except.ok hist) w k st).2 = none ↔ st.poller._history = some hist)
    ∧ (pollSeq (Except.ok hist) w ks (pollCached (Except.ok hist) w k st).1).2
        = List.replicate ks.length none := by
  have hk : cacheLookup k st.cache = none := hfr k (List.mem_cons_self k ks)
  constructor
  · rw [pollCached_miss _ _ _ _ hk]
    by_cases hs : st.poller._history = some hist
    · rw [pollCore_ok_same w st.poller hist hne hs]
      simp [hs]
    · rw [pollCore_ok_diff w st.poller hist hne hs]
      simp [hs]
  · apply pollSeq_same_all_none hist hne w ks
    · rw [pollCached_history_after_ok hist hne w k st hk]
    · exact hnd.of_cons
    · intro k' hk'
      have hkk : k ≠ k' := by
        rintro rfl
        exact (List.nodup_cons.mp hnd).1 hk'
      exact pollCached_fresh_preserved _ w k k' st hk hkk
        (hfr k' (List.mem_cons_of_mem _ hk'))

/-- Witness for the amended C1, at a concrete record, two fresh keys and
the startup state. -/
theorem poll_fresh_keys_idempotent_witness :
    (((pollCached (Except.ok [R0]) w0 "a" st0).2 = none
        ↔ st0.poller._history = some [R0])
      ∧ (pollSeq (Except.ok [R0]) w0 ["b"]
          (pollCached (Except.ok [R0]) w0 "a" st0).1).2
          = List.replicate (["b"] : List String).length none) :=
  poll_fresh_keys_idempotent [R0] (by decide) w0 "a" ["b"] st0
    (by decide) (by decide)

/-- C2: whenever the database query raises (the fetch fails) on a poll
that actually runs the query body, `poll` returns `SongInfo()` — a
present snapshot with all four fields absent, not `None`. -/
theorem poll_error_returns_empty_snapshot (w : World) (k : String) (st : SysState)
    (hf : cacheLookup k st.cache = none) :
    (pollCached (Except.error ()) w k st).2 = some emptySongInfo
    ∧ emptySongInfo.artist = none ∧ emptySongInfo.title = none
    ∧ emptySongInfo.album = none ∧ emptySongInfo.artwork = none
    ∧ (pollCached (Except.error ()) w k st).2 ≠ none := by
  rw [pollCached_miss _ _ _ _ hf, pollCore_error]
  refine ⟨rfl, rfl, rfl, rfl, rfl, by simp⟩

/-- Witness for C2 at a concrete key and the startup state. -/
theorem poll_error_returns_empty_snapshot_witness :
    ((pollCached (Except.error ()) w0 "a" st0).2 = some emptySongInfo
    ∧ emptySongInfo.artist = none ∧ emptySongInfo.title = none
    ∧ emptySongInfo.album = none ∧ emptySongInfo.artwork = none
    ∧ (pollCached (Except.error ()) w0 "a" st0).2 ≠ none) :=
  poll_error_returns_empty_snapshot w0 "a" st0 (by decide)

/-- C9: a failing fetch leaves the poller state (`self._history`)
untouched, and the next successful poll compares the fetched record
against the record last seen before the failure. -/
theorem poll_error_preserves_state (w w2 : World) (k k2 : String) (st : SysState)
    (h : List HistoryRecord) (hne : h ≠ [])
    (hf1 : cacheLookup k st.cache = none)
    (hf2 : cacheLookup k2 st.cache = none)
    (hkk : k ≠ k2) :
    (pollCached (Except.error ()) w k st).1.poller = st.poller
    ∧ (pollCached (Except.error ()) w k st).2 = some emptySongInfo
    ∧ ((pollCached (Except.ok h) w2 k2 (pollCached (Except.error ()) w k st).1).2 = none
        ↔ st.poller._history = some h) := by
  have hm := pollCached_miss (Except.error ()) w k st hf1
  rw [hm, pollCore_error]
  have hfresh2 : cacheLookup k2 (pollCached (Except.error ()) w k st).1.cache = none :=
    pollCached_fresh_preserved _ w k k2 st hf1 hkk hf2
  rw [hm, pollCore_error] at hfresh2
  refine ⟨rfl, rfl, ?_⟩
  rw [pollCached_miss _ _ _ _ hfresh2]
  by_cases hs : st.poller._history = some h
  · rw [pollCore_ok_same w2 _ h hne hs]
    simp [hs]
  · rw [pollCore_ok_diff w2 _ h hne hs]
    simp [hs]

/-- Witness for C9 at concrete keys, record and the startup state. -/
theorem poll_error_preserves_state_witness :
    ((pollCached (Except.error ()) w0 "a" st0).1.poller = st0.poller
    ∧ (pollCached (Except.error ()) w0 "a" st0).2 = some emptySongInfo
    ∧ ((pollCached (Except.ok [R0]) w0 "b"
          (pollCached (Except.error ()) w0 "a" st0).1).2 = none
        ↔ st0.poller._history = some [R0])) :=
  poll_error_preserves_state w0 w0 "a" "b" st0 [R0] (by decide)
    (by decide) (by decide) (by decide)

/-- C5: when the store is empty the query returns no rows, and every
poll — from any state whose memoized values are all absent, in
particular the startup state — returns absent, never an empty-valued
snapshot. -/
theorem empty_store_all_polls_absent (w : World) (keys : List String) (st : SysState)
    (hc : ∀ p ∈ st.cache, p.2 = none) :
    runQuery [] = []
    ∧ (pollSeq (Except.ok (runQuery [])) w keys st).2 = List.replicate keys.length none := by
  refine ⟨rfl, ?_⟩
  show (pollSeq (Except.ok []) w keys st).2 = List.replicate keys.length none
  induction keys generalizing st with
  | nil => rfl
  | cons k ks ih =>
    cases hlk : cacheLookup k st.cache with
    | some v =>
      have hv : v = none := hc _ (cacheLookup_some_mem k v st.cache hlk)
      subst hv
      simp only [pollSeq, pollCached, hlk, List.length_cons, List.replicate_succ]
      refine congrArg (List.cons none) ?_
      apply ih
      intro p hp
      rcases List.mem_cons.mp hp with hp | hp
      · rw [hp]
      · exact hc p (List.mem_of_mem_filter hp)
    | none =>
      have hm := pollCached_miss (Except.ok []) w k st hlk
      simp only [pollSeq, hm, pollCore_ok_nil, List.length_cons, List.replicate_succ]
      refine congrArg (List.cons none) ?_
      apply ih
      intro p hp
      rcases List.mem_cons.mp (List.mem_of_mem_take hp) with hp | hp
      · rw [hp]
      · exact hc p hp

/-- Witness for C5: two polls against the empty store from startup. -/
theorem empty_store_all_polls_absent_witness :
    (runQuery [] = []
    ∧ (pollSeq (Except.ok (runQuery [])) w0 ["a", "b"] st0).2
        = List.replicate (["a", "b"] : List String).length none) :=
  empty_store_all_polls_absent w0 ["a", "b"] st0 (by decide)

/-- C3 (counterexample): the claim's final clause "the two snapshots are
unequal" fails: two distinct history records for the same content (the
same song played again) are detected as a change at both polls, but the
two returned snapshots are equal. -/
theorem distinct_records_equal_snapshots :
    R0 ≠ R0again
    ∧ (pollCached (Except.ok [R0]) w0 "a" st0).2 ≠ none
    ∧ (pollCached (Except.ok [R0again]) w0 "b"
        (pollCached (Except.ok [R0]) w0 "a" st0).1).2 ≠ none
    ∧ (pollCached (Except.ok [R0]) w0 "a" st0).2
        = (pollCached (Except.ok [R0again]) w0 "b"
            (pollCached (Except.ok [R0]) w0 "a" st0).1).2 := by
  decide

/-- C3 (amended): for successive distinct records R1 then R2 observed at
fresh keys, poll 1 returns the snapshot built from R1's metadata and
sets `self._history` to R1's result list, poll 2 does the same for R2,
and the two snapshots are unequal whenever the rendered metadata
(artist/title/album/artwork) of R1 and R2 differ. -/
theorem change_detection_builds_snapshots (R1 R2 : HistoryRecord) (w : World)
    (k1 k2 : String) (st : SysState)
    (hR : R1 ≠ R2)
    (h1 : st.poller._history ≠ some [R1])
    (hf1 : cacheLookup k1 st.cache = none)
    (hf2 : cacheLookup k2 st.cache = none)
    (hk : k1 ≠ k2) :
    (pollCached (Except.ok [R1]) w k1 st).2 = some (snapshotOf w R1)
    ∧ (pollCached (Except.ok [R1]) w k1 st).1.poller = ⟨some [R1]⟩
    ∧ (pollCached (Except.ok [R2]) w k2 (pollCached (Except.ok [R1]) w k1 st).1).2
        = some (snapshotOf w R2)
    ∧ (pollCached (Except.ok [R2]) w k2 (pollCached (Except.ok [R1]) w k1 st).1).1.poller
        = ⟨some [R2]⟩
    ∧ (snapshotOf w R1 ≠ snapshotOf w R2 →
        (pollCached (Except.ok [R1]) w k1 st).2
          ≠ (pollCached (Except.ok [R2]) w k2 (pollCached (Except.ok [R1]) w k1 st).1).2) := by
  have hne1 : ([R1] : List HistoryRecord) ≠ [] := by simp
  have hne2 : ([R2] : List HistoryRecord) ≠ [] := by simp
  have hfresh2 : cacheLookup k2 (pollCached (Except.ok [R1]) w k1 st).1.cache = none :=
    pollCached_fresh_preserved _ w k1 k2 st hf1 hk hf2
  have hist1 : (pollCached (Except.ok [R1]) w k1 st).1.poller = ⟨some [R1]⟩ :=
    pollCached_history_after_ok [R1] hne1 w k1 st hf1
  have hr1 : (pollCached (Except.ok [R1]) w k1 st).2 = some (snapshotOf w R1) := by
    rw [pollCached_miss _ _ _ _ hf1, pollCore_ok_diff w st.poller [R1] hne1 h1]
    rfl
  have h2ne : (pollCached (Except.ok [R1]) w k1 st).1.poller._history ≠ some [R2] := by
    rw [hist1]
    simp only [ne_eq, Option.some.injEq, List.cons.injEq, and_true]
    exact fun hc => hR hc
  have hr2 : (pollCached (Except.ok [R2]) w k2 (pollCached (Except.ok [R1]) w k1 st).1).2
      = some (snapshotOf w R2) := by
    rw [pollCached_miss _ _ _ _ hfresh2,
        pollCore_ok_diff w _ [R2] hne2 h2ne]
    rfl
  have hist2 : (pollCached (Except.ok [R2]) w k2
      (pollCached (Except.ok [R1]) w k1 st).1).1.poller = ⟨some [R2]⟩ :=
    pollCached_history_after_ok [R2] hne2 w k2 _ hfresh2
  refine ⟨hr1, hist1, hr2, hist2, fun hss heq => hss ?_⟩
  rw [hr1, hr2] at heq
  exact Option.some.inj heq

/-- Witness for the amended C3, with concrete records whose titles
differ. -/
theorem change_detection_builds_snapshots_witness :
    ((pollCached (Except.ok [R0]) w0 "a" st0).2 = some (snapshotOf w0 R0)
    ∧ (pollCached (Except.ok [R0]) w0 "a" st0).1.poller = ⟨some [R0]⟩
    ∧ (pollCached (Except.ok [rNew]) w0 "b"
        (pollCached (Except.ok [R0]) w0 "a" st0).1).2 = some (snapshotOf w0 rNew)
    ∧ (pollCached (Except.ok [rNew]) w0 "b"
        (pollCached (Except.ok [R0]) w0 "a" st0).1).1.poller = ⟨some [rNew]⟩
    ∧ (snapshotOf w0 R0 ≠ snapshotOf w0 rNew →
        (pollCached (Except.ok [R0]) w0 "a" st0).2
          ≠ (pollCached (Except.ok [rNew]) w0 "b"
              (pollCached (Except.ok [R0]) w0 "a" st0).1).2)) :=
  change_detection_builds_snapshots R0 rNew w0 "a" "b" st0
    (by decide) (by decide) (by decide) (by decide) (by decide)

/-- C4 (code evaluated at the failing input): the where-clause of the
query is the Python constant `True`, so a record with a NULL `Title` is
NOT filtered out — the poll returns a snapshot built from it — whereas
under the filter the spec describes the query would return no rows and
the poll would return absent. The last conjunct checks the
order-by/limit behaviour: of two records the newer one is returned. -/
theorem title_filter_not_applied :
    runQuery storeNullTitle = [nullTitleRecord]
    ∧ runQueryTitleFiltered storeNullTitle = []
    ∧ (pollCached (Except.ok (runQuery storeNullTitle)) w0 "a" st0).2
        = some emptySongInfo
    ∧ (pollCached (Except.ok (runQueryTitleFiltered storeNullTitle)) w0 "a" st0).2
        = none
    ∧ runQuery [rOld, rNew] = [rNew] := by
  decide

/-- C6: the artwork pipeline — absent reference yields absent artwork;
a non-file or unreadable path yields absent; a readable path yields a
data URI of the extension-inferred MIME type and the base64-encoded
bytes; `.jpg`/`.jpeg` map to `image/jpeg`, `.png` to `image/png`, any
other suffix to the generic type; and a record whose artwork cannot be
loaded still yields a snapshot with all other fields populated. -/
theorem artwork_encoding_spec (w1 w2 w3 : World) (p1 p2 p3 sfx : String)
    (bs : List Nat) (r : HistoryRecord) (st : SysState) (k : String)
    (hb : w1.isFile (fullPathOf w1 p1) = false)
    (hc1 : w2.isFile (fullPathOf w2 p2) = true)
    (hc2 : w2.readBytes (fullPathOf w2 p2) = Except.error ())
    (hd1 : w3.isFile (fullPathOf w3 p3) = true)
    (hd2 : w3.readBytes (fullPathOf w3 p3) = Except.ok bs)
    (hs1 : sfx ≠ ".jpg") (hs2 : sfx ≠ ".jpeg") (hs3 : sfx ≠ ".png")
    (hr : r.Content.ImagePath = some p1) (hp1 : p1 ≠ "")
    (hfresh : cacheLookup k st.cache = none)
    (hch : st.poller._history ≠ some [r]) :
    encodeArtwork w1 none = none
    ∧ load_image_as_base64_data_uri w1 p1 = none
    ∧ load_image_as_base64_data_uri w2 p2 = none
    ∧ load_image_as_base64_data_uri w3 p3
        = some ("data:" ++ mimeFromSuffix (pySuffix (fullPathOf w3 p3)).toLower
            ++ ";base64," ++ base64Encode bs)
    ∧ mimeFromSuffix ".jpg" = "image/jpeg"
    ∧ mimeFromSuffix ".jpeg" = "image/jpeg"
    ∧ mimeFromSuffix ".png" = "image/png"
    ∧ mimeFromSuffix sfx = "image/*"
    ∧ (pollCached (Except.ok [r]) w1 k st).2
        = some { artist := r.Content.Artist.bind ArtistRow.Name
               , title := r.Content.Title
               , album := r.Content.Album.bind AlbumRow.Name
               , artwork := none } := by
  have hart : encodeArtwork w1 r.Content.ImagePath = none := by
    rw [hr]
    simp only [encodeArtwork]
    rw [if_neg hp1]
    simp [load_image_as_base64_data_uri, hb]
  refine ⟨rfl, ?_, ?_, ?_, by decide, by decide, by decide, ?_, ?_⟩
  · simp [load_image_as_base64_data_uri, hb]
  · simp [load_image_as_base64_data_uri, hc1, hc2]
  · simp [load_image_as_base64_data_uri, hd1, hd2]
  · simp [mimeFromSuffix, hs1, hs2, hs3]
  · rw [pollCached_miss _ _ _ _ hfresh,
        pollCore_ok_diff w1 st.poller [r] (by simp) hch]
    show some (snapshotOf w1 r) = _
    simp [snapshotOf, hart]

/-- Witness for C6 at concrete worlds, suffixes and a concrete record
whose artwork path resolves to no file. -/
theorem artwork_encoding_spec_witness :
    (encodeArtwork w0 none = none
    ∧ load_image_as_base64_data_uri w0 "missing.png" = none
    ∧ load_image_as_base64_data_uri wReadErr "art.png" = none
    ∧ load_image_as_base64_data_uri wReadOk "art.png"
        = some ("data:" ++ mimeFromSuffix (pySuffix (fullPathOf wReadOk "art.png")).toLower
            ++ ";base64," ++ base64Encode [137, 80])
    ∧ mimeFromSuffix ".jpg" = "image/jpeg"
    ∧ mimeFromSuffix ".jpeg" = "image/jpeg"
    ∧ mimeFromSuffix ".png" = "image/png"
    ∧ mimeFromSuffix ".gif" = "image/*"
    ∧ (pollCached (Except.ok [rArt]) w0 "a" st0).2
        = some { artist := rArt.Content.Artist.bind ArtistRow.Name
               , title := rArt.Content.Title
               , album := rArt.Content.Album.bind AlbumRow.Name
               , artwork := none }) :=
  artwork_encoding_spec w0 wReadErr wReadOk "missing.png" "art.png" "art.png" ".gif"
    [137, 80] rArt st0 "a" (by decide) (by decide) rfl (by decide) rfl
    (by decide) (by decide) (by decide) (by decide) (by decide) (by decide) (by decide)

/-- C7: in the hotkey broadcast loop, a cycle whose single send attempt
fails with `ConnectionClosedOK` is swallowed and the loop goes on to
wait for the next queue signal, while a cycle whose send fails with any
other exception terminates the loop instance with that error. -/
theorem hotkey_loop_send_failure_handling (e1 e2 : HotkeyStep)
    (es1 es2 : List HotkeyStep) (st1 st2 st1' st2' : SysState) (s1 s2 : SongInfo)
    (hk1 : e1.key = true) (ho1 : e1.send = SendOutcome.closedOK)
    (hp1 : pollCached e1.fetch e1.world (strftimeSeconds e1.time) st1 = (st1', some s1))
    (hk2 : e2.key = true) (ho2 : e2.send = SendOutcome.fatal)
    (hp2 : pollCached e2.fetch e2.world (strftimeSeconds e2.time) st2 = (st2', some s2)) :
    wait_for_hotkey_run (e1 :: es1) st1 = wait_for_hotkey_run es1 st1'
    ∧ wait_for_hotkey_run (e2 :: es2) st2 = Except.error () := by
  constructor
  · simp only [wait_for_hotkey_run, hk1, if_true, send_track_info, hp1, ho1]
  · simp only [wait_for_hotkey_run, hk2, if_true, send_track_info, hp2, ho2]

/-- Witness for C7 at concrete cycles from the startup state. -/
theorem hotkey_loop_send_failure_handling_witness :
    wait_for_hotkey_run [eClosed] st0
      = wait_for_hotkey_run []
          (pollCached (Except.ok [R0]) w0 (strftimeSeconds t0) st0).1
    ∧ wait_for_hotkey_run [eFatal] st0 = Except.error () :=
  hotkey_loop_send_failure_handling eClosed eFatal [] [] st0 st0
    (pollCached (Except.ok [R0]) w0 (strftimeSeconds t0) st0).1
    (pollCached (Except.ok [R0]) w0 (strftimeSeconds t0) st0).1
    (snapshotOf w0 R0) (snapshotOf w0 R0)
    (by decide) (by decide) (by decide) (by decide) (by decide) (by decide)

theorem cycleFirstShape_interval_run (steps : List IntervalStep) :
    ∀ st : SysState, cycleFirstShape (wait_for_interval_run steps st).1 = true := by
  induction steps with
  | nil => intro st; rfl
  | cons a as ih =>
    intro st
    simp only [wait_for_interval_run]
    cases hs : send_track_info a.fetch a.world a.time a.send st with
    | error x => rfl
    | ok p =>
      obtain ⟨stn, rn⟩ := p
      show cycleFirstShape (wait_for_interval_run as stn).1 = true
      exact ih stn

/-- C8: the interval loop is poll-then-wait: every iteration's trace is
a poll-and-send cycle followed by the sleep (so the trace never starts
with a sleep), and in particular the first cycle of a connection runs
immediately, before the first wait, with the loop then continuing on the
remaining iterations. -/
theorem interval_loop_poll_then_wait (steps : List IntervalStep) (st stf : SysState)
    (s : IntervalStep) (rest : List IntervalStep) (st' : SysState) (r : Option SongInfo)
    (h : send_track_info s.fetch s.world s.time s.send st = Except.ok (st', r)) :
    cycleFirstShape (wait_for_interval_run steps stf).1 = true
    ∧ (wait_for_interval_run (s :: rest) st).1
        = LoopEvent.cycle r :: LoopEvent.slept :: (wait_for_interval_run rest st').1 := by
  constructor
  · exact cycleFirstShape_interval_run steps stf
  · simp only [wait_for_interval_run, h]

/-- Witness for C8: one concrete iteration from the startup state. -/
theorem interval_loop_poll_then_wait_witness :
    cycleFirstShape (wait_for_interval_run [sInterval] st0).1 = true
    ∧ (wait_for_interval_run [sInterval] st0).1
        = LoopEvent.cycle (some (snapshotOf w0 R0)) :: LoopEvent.slept ::
            (wait_for_interval_run []
              (pollCached (Except.ok [R0]) w0 (strftimeSeconds t0) st0).1).1 :=
  interval_loop_poll_then_wait [sInterval] st0 st0 sInterval []
    (pollCached (Except.ok [R0]) w0 (strftimeSeconds t0) st0).1
    (some (snapshotOf w0 R0)) rfl

theorem keys_filter_ne (x : String) (c : List (String × Option SongInfo)) :
    (c.filter (fun p => p.1 != x)).map Prod.fst
      = (c.map Prod.fst).filter (fun y => y != x) := by
  induction c with
  | nil => rfl
  | cons p rest ih =>
    by_cases h : p.1 = x
    · simp [List.filter_cons, h, ih]
    · simp [List.filter_cons, h, ih]

theorem nodup_cache_hit (x : String) (v : Option SongInfo)
    (c : List (String × Option SongInfo)) (hnd : (c.map Prod.fst).Nodup) :
    (((x, v) :: c.filter (fun p => p.1 != x)).map Prod.fst).Nodup := by
  rw [List.map_cons, keys_filter_ne, List.nodup_cons]
  refine ⟨?_, hnd.filter _⟩
  simp [List.mem_filter]

theorem nodup_cache_miss (x : String) (v : Option SongInfo)
    (c : List (String × Option SongInfo)) (hnd : (c.map Prod.fst).Nodup)
    (hx : x ∉ c.map Prod.fst) (n : Nat) :
    ((((x, v) :: c).take n).map Prod.fst).Nodup := by
  have hsub : List.Sublist (((x, v) :: c).take n) ((x, v) :: c) := List.take_sublist n _
  have h2 : (((x, v) :: c).map Prod.fst).Nodup := by
    rw [List.map_cons, List.nodup_cons]
    exact ⟨hx, hnd⟩
  exact h2.sublist (hsub.map Prod.fst)

theorem runCalls_cache_stable (k : String) (r : Option SongInfo) :
    ∀ (cs : List PollCall) (st : SysState)
      (pre post : List (String × Option SongInfo)),
      st.cache = pre ++ (k, r) :: post →
      (st.cache.map Prod.fst).Nodup →
      (∀ c ∈ cs, c.key ≠ k) →
      ((pre.map Prod.fst).toFinset ∪ (cs.map PollCall.key).toFinset).card ≤ 99 →
      ∃ pre' post', (runCalls cs st).cache = pre' ++ (k, r) :: post'
        ∧ ((runCalls cs st).cache.map Prod.fst).Nodup := by
  intro cs
  induction cs with
  | nil =>
    intro st pre post hsh hnd _ _
    exact ⟨pre, post, hsh, hnd⟩
  | cons c cs ih =>
    intro st pre post hsh hnd hkeys hcard
    have hck : c.key ≠ k := hkeys c (List.mem_cons_self c cs)
    have hrun : runCalls (c :: cs) st
        = runCalls cs (pollCached c.fetch c.world c.key st).1 := rfl
    cases hlk : cacheLookup c.key st.cache with
    | some v =>
      have hstep : (pollCached c.fetch c.world c.key st).1
          = { st with cache := (c.key, v) :: st.cache.filter (fun p => p.1 != c.key) } := by
        simp [pollCached, hlk]
      have hkr : ((k, r) : String × Option SongInfo).1 != c.key := by
        simp [Ne.symm hck]
      have hcache : (c.key, v) :: st.cache.filter (fun p => p.1 != c.key)
          = ((c.key, v) :: pre.filter (fun p => p.1 != c.key))
              ++ (k, r) :: post.filter (fun p => p.1 != c.key) := by
        rw [hsh, List.filter_append, List.filter_cons, if_pos hkr]
        rfl
      have hnd' : (((c.key, v) :: st.cache.filter (fun p => p.1 != c.key)).map Prod.fst).Nodup :=
        nodup_cache_hit c.key v st.cache hnd
      rw [hrun, hstep]
      apply ih _ ((c.key, v) :: pre.filter (fun p => p.1 != c.key))
        (post.filter (fun p => p.1 != c.key))
      · exact hcache
      · exact hnd'
      · exact fun c' hc' => hkeys c' (List.mem_cons_of_mem _ hc')
      · refine le_trans (Finset.card_le_card ?_) hcard
        intro x hx
        simp only [Finset.mem_union, List.mem_toFinset, List.map_cons, List.mem_cons,
          keys_filter_ne, List.mem_filter] at hx ⊢
        rcases hx with (hx | hx) | hx
        · exact Or.inr (Or.inl hx)
        · exact Or.inl hx.1
        · exact Or.inr (Or.inr hx)
    | none =>
      have hknotin : c.key ∉ st.cache.map Prod.fst :=
        (cacheLookup_eq_none_iff c.key st.cache).mp hlk
      have hkeys_eq : st.cache.map Prod.fst
          = pre.map Prod.fst ++ k :: post.map Prod.fst := by
        rw [hsh]; simp
      have hndpre : (pre.map Prod.fst).Nodup := by
        rw [hkeys_eq] at hnd
        exact hnd.of_append_left
      have hcknotpre : c.key ∉ (pre.map Prod.fst).toFinset := by
        rw [List.mem_toFinset]
        intro hmem
        exact hknotin (by rw [hkeys_eq]; exact List.mem_append_left _ hmem)
      have hlen : pre.length + 1 ≤ 99 := by
        have h1 : (insert c.key (pre.map Prod.fst).toFinset).card
            = (pre.map Prod.fst).toFinset.card + 1 :=
          Finset.card_insert_of_not_mem hcknotpre
        have h2 : insert c.key (pre.map Prod.fst).toFinset
            ⊆ (pre.map Prod.fst).toFinset ∪ ((c :: cs).map PollCall.key).toFinset := by
          intro x hx
          rcases Finset.mem_insert.mp hx with hx | hx
          · subst hx
            apply Finset.mem_union_right
            simp
          · exact Finset.mem_union_left _ hx
        have h3 : (pre.map Prod.fst).toFinset.card = pre.length := by
          rw [List.toFinset_card_of_nodup hndpre, List.length_map]
        calc pre.length + 1 = (insert c.key (pre.map Prod.fst).toFinset).card := by
              rw [h1, h3]
          _ ≤ ((pre.map Prod.fst).toFinset ∪ ((c :: cs).map PollCall.key).toFinset).card :=
              Finset.card_le_card h2
          _ ≤ 99 := hcard
      have hstep : (pollCached c.fetch c.world c.key st).1
          = { cache := ((c.key, (pollCore c.fetch c.world st.poller).2) :: st.cache).take 100,
              poller := (pollCore c.fetch c.world st.poller).1 } := by
        rw [pollCached_miss _ _ _ _ hlk]
      have hm : 100 - ((c.key, (pollCore c.fetch c.world st.poller).2) :: pre).length
          = (98 - pre.length) + 1 := by
        simp only [List.length_cons]
        omega
      have hcache : (((c.key, (pollCore c.fetch c.world st.poller).2) :: st.cache).take 100)
          = ((c.key, (pollCore c.fetch c.world st.poller).2) :: pre)
              ++ (k, r) :: post.take (98 - pre.length) := by
        rw [hsh, ← List.cons_append, List.take_append_eq_append_take, hm,
            List.take_of_length_le (l := (c.key, (pollCore c.fetch c.world st.poller).2) :: pre)
              (by simp only [List.length_cons]; omega)]
        rfl
      have hnd' : (((((c.key, (pollCore c.fetch c.world st.poller).2) :: st.cache).take 100)).map
          Prod.fst).Nodup :=
        nodup_cache_miss c.key _ st.cache hnd hknotin 100
      rw [hrun, hstep]
      apply ih _ ((c.key, (pollCore c.fetch c.world st.poller).2) :: pre)
        (post.take (98 - pre.length))
      · exact hcache
      · exact hnd'
      · exact fun c' hc' => hkeys c' (List.mem_cons_of_mem _ hc')
      · refine le_trans (Finset.card_le_card ?_) hcard
        intro x hx
        simp only [Finset.mem_union, List.mem_toFinset, List.map_cons, List.mem_cons] at hx ⊢
        rcases hx with (hx | hx) | hx
        · exact Or.inr (Or.inl hx)
        · exact Or.inl hx
        · exact Or.inr (Or.inr hx)

/-- C10: two `poll` calls with the same cache key, separated by any
calls whose keys differ from it and span fewer than 100 distinct keys,
are memoized: the second call returns the first call's result — for any
fetch result and filesystem at the time of the second call, so the store
is not consulted — and leaves the poller's `_history` untouched. The
key itself is the UTC timestamp truncated to whole seconds:
`strftimeSeconds` is invariant under discarding microseconds. -/
theorem poll_cache_same_key_memoized (f1 f2 : Except Unit (List HistoryRecord))
    (w1 w2 : World) (k : String) (st : SysState) (cs : List PollCall)
    (hnd : (st.cache.map Prod.fst).Nodup)
    (hkeys : ∀ c ∈ cs, c.key ≠ k)
    (hcount : ((cs.map PollCall.key).dedup).length ≤ 99) :
    (pollCached f2 w2 k (runCalls cs (pollCached f1 w1 k st).1)).2
      = (pollCached f1 w1 k st).2
    ∧ (pollCached f2 w2 k (runCalls cs (pollCached f1 w1 k st).1)).1.poller
      = (runCalls cs (pollCached f1 w1 k st).1).poller
    ∧ strftimeSeconds ∘ truncToSecond = strftimeSeconds := by
  have hcount' : ((cs.map PollCall.key).toFinset).card ≤ 99 := by
    rw [List.card_toFinset]; exact hcount
  have hshape : ∃ post0, (pollCached f1 w1 k st).1.cache
      = (k, (pollCached f1 w1 k st).2) :: post0
      ∧ (((pollCached f1 w1 k st).1.cache).map Prod.fst).Nodup := by
    cases hlk : cacheLookup k st.cache with
    | some v =>
      refine ⟨st.cache.filter (fun p => p.1 != k), ?_, ?_⟩
      · simp [pollCached, hlk]
      · have hh := nodup_cache_hit k v st.cache hnd
        simp only [pollCached, hlk]
        exact hh
    | none =>
      refine ⟨st.cache.take 99, ?_, ?_⟩
      · rw [pollCached_miss _ _ _ _ hlk]
        rfl
      · have hkn : k ∉ st.cache.map Prod.fst :=
          (cacheLookup_eq_none_iff k st.cache).mp hlk
        have hh := nodup_cache_miss k (pollCore f1 w1 st.poller).2 st.cache hnd hkn 100
        rw [pollCached_miss _ _ _ _ hlk]
        exact hh
  obtain ⟨post0, hsh0, hnd0⟩ := hshape
  obtain ⟨pre', post', hsh', hnd'⟩ :=
    runCalls_cache_stable k (pollCached f1 w1 k st).2 cs (pollCached f1 w1 k st).1 [] post0
      hsh0 hnd0 hkeys (by simpa using hcount')
  have hknotpre : k ∉ pre'.map Prod.fst := by
    rw [hsh', List.map_append] at hnd'
    have hdisj := List.disjoint_of_nodup_append hnd'
    intro hmem
    exact hdisj hmem (by simp)
  have hfin : cacheLookup k (runCalls cs (pollCached f1 w1 k st).1).cache
      = some (pollCached f1 w1 k st).2 := by
    rw [hsh']
    exact cacheLookup_of_split k _ pre' post' hknotpre
  have hfin2 := pollCached_hit f2 w2 k _ _ hfin
  refine ⟨?_, ?_, ?_⟩
  · rw [hfin2]
  · rw [hfin2]
  · funext t
    rfl

/-- Witness for C10: a first call at key "a", one intervening call at
key "b", then a second call at key "a" against a different fetch
result. -/
theorem poll_cache_same_key_memoized_witness :
    ((pollCached (Except.ok []) w0 "a"
        (runCalls [cAlt] (pollCached (Except.ok [R0]) w0 "a" st0).1)).2
      = (pollCached (Except.ok [R0]) w0 "a" st0).2
    ∧ (pollCached (Except.ok []) w0 "a"
        (runCalls [cAlt] (pollCached (Except.ok [R0]) w0 "a" st0).1)).1.poller
      = (runCalls [cAlt] (pollCached (Except.ok [R0]) w0 "a" st0).1).poller
    ∧ strftimeSeconds ∘ truncToSecond = strftimeSeconds) :=
  poll_cache_same_key_memoized (Except.ok [R0]) (Except.ok []) w0 w0 "a" st0 [cAlt]
    (by decide) (by decide) (by decide)

end NowPlaying
